import Mathlib

/-!
A shallow embedding of the deterministic core of the `resumeExplorer`
repository: the content-addressed analysis cache of
`src/agents/flask_app.py` (`cache_analysis`, `get_cached_analysis`,
`cleanup_old_cache`) and the document readability pipeline of
`src/utils/enhanced_pdf_processor.py` (`extract_text_from_bytes`,
`clean_text`, `analyze_readability`, `extract_key_phrases`,
`process_pdf`).  Pure Python functions become Lean functions; the SQLite
table becomes a keyed list of rows with explicit `now` timestamps
(seconds as `Nat`); external libraries (pdfplumber, PyPDF2, NLTK,
textstat, json) are modelled where noted in doc comments.
-/

/-- A row of the `analysis_cache` SQLite table created by `init_db` in
`src/agents/flask_app.py`: `(content_hash, analysis_result, created_at,
accessed_count, last_accessed)`.  `payload` is the serialized
`analysis_result` string stored via `json.dumps`; timestamps are seconds
modelled as `Nat`. -/
structure CacheEntry where
  payload : String
  created_at : Nat
  accessed_count : Nat
  last_accessed : Nat
deriving Repr, DecidableEq

/-- The cache table: a keyed list of rows, `content_hash` being the
primary key (so well-formed tables have pairwise distinct keys). -/
abbrev CacheTable := List (String × CacheEntry)

/-- `SELECT ... WHERE content_hash = h`: the first row with key `h`. -/
def cacheLookup (h : String) : CacheTable → Option CacheEntry
  | [] => none
  | (k, e) :: rest => if k = h then some e else cacheLookup h rest

/-- The 24-hour serving freshness window of `get_cached_analysis`
(`datetime('now', '-24 hours')`), in seconds. -/
def freshnessWindow : Nat := 24 * 3600

/-- The 7-day storage retention window of `cleanup_old_cache`
(`datetime('now', '-7 days')`), in seconds. -/
def retentionWindow : Nat := 7 * 24 * 3600

/-- `cache_analysis` (src/agents/flask_app.py) at the row level:
`INSERT OR REPLACE INTO analysis_cache` storing the serialized payload,
`created_at = last_accessed = CURRENT_TIMESTAMP` (the `now` argument) and
`accessed_count = COALESCE((SELECT accessed_count FROM analysis_cache
WHERE content_hash = h), 0) + 1`, the subquery reading the pre-existing
row. -/
def cacheAnalysisRow (now : Nat) (h : String) (payload : String) (st : CacheTable) : CacheTable :=
  (h, { payload := payload
        created_at := now
        accessed_count := (match cacheLookup h st with
                           | some e => e.accessed_count
                           | none => 0) + 1
        last_accessed := now }) :: st.filter (fun r => !(r.1 == h))

/-- The `UPDATE analysis_cache SET accessed_count = accessed_count + 1,
last_accessed = CURRENT_TIMESTAMP WHERE content_hash = h` run by
`get_cached_analysis` on a cache hit. -/
def touchRow (now : Nat) (h : String) : CacheTable → CacheTable
  | [] => []
  | (k, e) :: rest =>
    (if k = h then (k, { e with accessed_count := e.accessed_count + 1, last_accessed := now })
     else (k, e)) :: touchRow now h rest

/-- `get_cached_analysis` (src/agents/flask_app.py) at the row level:
returns the serialized payload when a row for `h` exists and
`datetime(created_at) > datetime('now', '-24 hours')`, i.e.
`now < created_at + 24h`; on such a hit it also updates the row's access
statistics.  Returns the payload (if any) together with the table after
the side effect. -/
def getCachedRow (now : Nat) (h : String) (st : CacheTable) : Option String × CacheTable :=
  match cacheLookup h st with
  | none => (none, st)
  | some e =>
    if now < e.created_at + freshnessWindow then (some e.payload, touchRow now h st)
    else (none, st)

/-- `cleanup_old_cache` (src/agents/flask_app.py): `DELETE FROM
analysis_cache WHERE datetime(created_at) < datetime('now', '-7 days')`,
i.e. delete exactly the rows with `created_at + 7d < now`. -/
def cleanupOldCache (now : Nat) (st : CacheTable) : CacheTable :=
  st.filter (fun r => !(decide (r.2.created_at + retentionWindow < now)))

/-- `cache_analysis` at the payload level: the analysis result is stored
as `json.dumps(analysis_result)`; `dumps` is the caller-supplied model of
the external serializer. -/
def cacheAnalysis {α : Type} (dumps : α → String) (now : Nat) (h : String) (p : α)
    (st : CacheTable) : CacheTable :=
  cacheAnalysisRow now h (dumps p) st

/-- `get_cached_analysis` at the payload level: a hit returns
`json.loads(result[0])`; `loads` is the caller-supplied model of the
external deserializer (`none` modelling a parse failure). -/
def getCachedAnalysis {α : Type} (loads : String → Option α) (now : Nat) (h : String)
    (st : CacheTable) : Option α × CacheTable :=
  ((getCachedRow now h st).1.bind loads, (getCachedRow now h st).2)

/-- A concrete lossless payload codec used to exercise the cache
round-trip on a decidable payload type. -/
def boolDumps (b : Bool) : String := if b then "true" else "false"

/-- Inverse of `boolDumps`. -/
def boolLoads (s : String) : Option Bool :=
  if s = "true" then some true else if s = "false" then some false else none

/-- Python regex class `\s` restricted to ASCII: space, tab, newline,
carriage return, vertical tab, form feed.  (Non-ASCII Unicode whitespace
is not modelled.)  This is also the set stripped by `str.strip()`. -/
def pySpace (c : Char) : Bool :=
  c == ' ' || c == '\t' || c == '\n' || c == '\r' || c == '\x0b' || c == '\x0c'

/-- Python regex class `\w` restricted to ASCII: letters, digits and
underscore.  (Non-ASCII Unicode word characters are not modelled.) -/
def pyWordChar (c : Char) : Bool := c.isAlphanum || c == '_'

/-- The punctuation kept by the safe-set substitution in `clean_text`:
period, comma, bang, question mark, semicolon, colon, hyphen, single
quote, double quote, parentheses, at-sign. -/
def keptPunct : List Char := ['.', ',', '!', '?', ';', ':', '-', '\'', '"', '(', ')', '@']

/-- The first substitution of `clean_text`: each maximal run of
whitespace characters is replaced by a single space (the `re.sub` with
pattern backslash-s-plus and replacement a single space).  The flag
records whether the previous character was whitespace. -/
def collapseWsAux : Bool → List Char → List Char
  | _, [] => []
  | prev, c :: cs =>
    if pySpace c then
      (if prev then collapseWsAux true cs else ' ' :: collapseWsAux true cs)
    else c :: collapseWsAux false cs

/-- See `collapseWsAux`. -/
def collapseWs (l : List Char) : List Char := collapseWsAux false l

/-- The second substitution of `clean_text`: each maximal run of newline
characters is replaced by a single newline.  (It runs after `collapseWs`,
which has already turned every newline into a space.) -/
def collapseNlAux : Bool → List Char → List Char
  | _, [] => []
  | prev, c :: cs =>
    if c = '\n' then
      (if prev then collapseNlAux true cs else '\n' :: collapseNlAux true cs)
    else c :: collapseNlAux false cs

/-- See `collapseNlAux`. -/
def collapseNl (l : List Char) : List Char := collapseNlAux false l

/-- Membership in the safe character set of `clean_text`: word
characters, whitespace, and the kept punctuation. -/
def safeChar (c : Char) : Bool := pyWordChar c || pySpace c || keptPunct.contains c

/-- The third substitution of `clean_text`: every character outside the
safe set is removed. -/
def removeUnsafe (l : List Char) : List Char := l.filter safeChar

/-- The `text.replace` step of `clean_text`: left-to-right removal of
every non-overlapping occurrence of the two-character sequence
hyphen-then-space, as Python `str.replace` does (the scan continues after
the removed occurrence and never rescans the seam). -/
def removeHyphenSpace : List Char → List Char
  | '-' :: ' ' :: rest => removeHyphenSpace rest
  | c :: rest => c :: removeHyphenSpace rest
  | [] => []

/-- The camel-case substitution of `clean_text`: a space is inserted at
every boundary where an ASCII lowercase letter is immediately followed by
an ASCII uppercase letter (the `re.sub` with a lowercase lookbehind and
an uppercase lookahead). -/
def camelSpace : List Char → List Char
  | a :: b :: rest =>
    if a.isLower && b.isUpper then a :: ' ' :: camelSpace (b :: rest)
    else a :: camelSpace (b :: rest)
  | l => l

/-- Python `str.strip()`: removes leading and trailing whitespace. -/
def trimChars (l : List Char) : List Char :=
  ((l.dropWhile pySpace).reverse.dropWhile pySpace).reverse

/-- `EnhancedPDFProcessor.clean_text`
(src/utils/enhanced_pdf_processor.py): empty input yields the empty
string; otherwise whitespace runs are collapsed, newline runs are
collapsed, characters outside the safe set are removed, hyphen-space
sequences are removed, camel-case boundaries are split, and the ends are
stripped, in that order. -/
def cleanText (s : String) : String :=
  if s = "" then ""
  else ⟨trimChars (camelSpace (removeHyphenSpace (removeUnsafe (collapseNl (collapseWs s.data)))))⟩

/-- Whitespace tokenization, accumulating the current word reversed.
Models the external NLTK `word_tokenize` (the claims proved about the
key-phrase extractor do not depend on the token boundaries the external
tokenizer chooses, and the concrete test inputs contain only
space-separated words, on which the two agree). -/
def wsTokensAux : List Char → List Char → List String
  | cur, [] => if cur.isEmpty then [] else [⟨cur.reverse⟩]
  | cur, c :: cs =>
    if pySpace c then
      (if cur.isEmpty then wsTokensAux [] cs else ⟨cur.reverse⟩ :: wsTokensAux [] cs)
    else wsTokensAux (c :: cur) cs

/-- See `wsTokensAux`. -/
def wsTokens (l : List Char) : List String := wsTokensAux [] l

/-- `word_tokenize(text.lower())` as used by `extract_key_phrases`:
ASCII lower-casing followed by tokenization. -/
def pyTokens (s : String) : List String := wsTokens (s.data.map Char.toLower)

/-- The fallback English stop-word set of the `EnhancedPDFProcessor`
constructor (the NLTK corpus is an external download; the source falls
back to exactly this set when it is unavailable). -/
def stopWords : List String :=
  ["the", "a", "an", "and", "or", "but", "in", "on", "at", "to", "for", "of", "with", "by"]

/-- The token filter of `extract_key_phrases`: `word.isalpha()` (ASCII
letters modelled), length strictly greater than 2, and not a stop-word. -/
def validToken (w : String) : Bool :=
  (!w.data.isEmpty) && w.data.all (fun c => c.isAlpha) && decide (2 < w.data.length)
    && !(stopWords.contains w)

/-- The filtered token stream of `extract_key_phrases`: the tokens of the
lower-cased text that pass `validToken`. -/
def filteredTokens (s : String) : List String := (pyTokens s).filter validToken

/-- The distinct tokens in order of first appearance: models the
insertion order of the Python `Counter` dictionary built in
`extract_key_phrases`.  `seen` is the set of tokens already emitted. -/
def firstDedupAux (seen : List String) : List String → List String
  | [] => []
  | w :: ws =>
    if w ∈ seen then firstDedupAux seen ws
    else w :: firstDedupAux (w :: seen) ws

/-- See `firstDedupAux`. -/
def firstDedup (l : List String) : List String := firstDedupAux [] l

/-- `Counter(words)` modelled as an association list of (token, count)
pairs in first-appearance order (the insertion order of the Python
dictionary). -/
def countsList (ws : List String) : List (String × Nat) :=
  (firstDedup ws).map (fun w => (w, ws.count w))

/-- Stable insertion into a list sorted by descending count: the new item
goes after every item whose count is greater than or equal to its own. -/
def insertByCount (p : String × Nat) : List (String × Nat) → List (String × Nat)
  | [] => [p]
  | q :: rest => if p.2 ≤ q.2 then q :: insertByCount p rest else p :: q :: rest

/-- `Counter.most_common` ordering: a stable sort by descending count
(Python `heapq.nlargest` is documented as equivalent to a stable
`sorted(..., reverse=True)` slice), modelled as a left fold of stable
insertions over the pairs in insertion order. -/
def sortByCountDesc (l : List (String × Nat)) : List (String × Nat) :=
  l.foldl (fun acc p => insertByCount p acc) []

/-- `EnhancedPDFProcessor.extract_key_phrases`
(src/utils/enhanced_pdf_processor.py): empty input returns the empty
list; otherwise the text is lower-cased and tokenized, tokens are kept
when alphabetic, longer than 2 and not stop-words, and the words of the
`top_n` most common (token, count) pairs are returned. -/
def extractKeyPhrases (text : String) (top_n : Nat := 15) : List String :=
  if text = "" then []
  else ((sortByCountDesc (countsList (filteredTokens text))).take top_n).map Prod.fst

/-- The index of the first occurrence of `w` in a token stream. -/
def firstIdx (w : String) : List String → Nat
  | [] => 0
  | v :: vs => if v = w then 0 else firstIdx w vs + 1

/-- The order `extract_key_phrases` guarantees between two returned
(token, count) pairs: strictly greater count first, equal counts resolved
by the given rank (the first-occurrence index of the token). -/
def rankedBefore (ix : String → Nat) (p q : String × Nat) : Prop :=
  q.2 < p.2 ∨ (p.2 = q.2 ∧ ix p.1 < ix q.1)

/-- The seven-level Flesch Reading Ease ladder of `analyze_readability`
(src/utils/enhanced_pdf_processor.py), evaluated top-down with inclusive
lower bounds, exactly as the if/elif chain of the source. -/
def readabilityLevel (s : ℚ) : String :=
  if 90 ≤ s then "Very Easy"
  else if 80 ≤ s then "Easy"
  else if 70 ≤ s then "Fairly Easy"
  else if 60 ≤ s then "Standard"
  else if 50 ≤ s then "Fairly Difficult"
  else if 30 ≤ s then "Difficult"
  else "Very Difficult"

/-- The position of a readability level name in the ladder, 0 for the
easiest bucket through 6 for the hardest; used to state monotonicity. -/
def levelRank (lvl : String) : Nat :=
  if lvl = "Very Easy" then 0
  else if lvl = "Easy" then 1
  else if lvl = "Fairly Easy" then 2
  else if lvl = "Standard" then 3
  else if lvl = "Fairly Difficult" then 4
  else if lvl = "Difficult" then 5
  else 6

/-- Modelled from the external NLTK `sent_tokenize`: sentences split at
period, exclamation and question marks, keeping segments containing at
least one non-separator character. -/
def sentSplitAux (cur : List Char) : List Char → List (List Char)
  | [] => if cur.isEmpty then [] else [cur.reverse]
  | c :: cs =>
    if c = '.' ∨ c = '!' ∨ c = '?' then
      (if cur.isEmpty then sentSplitAux [] cs else cur.reverse :: sentSplitAux [] cs)
    else sentSplitAux (c :: cur) cs

/-- See `sentSplitAux`. -/
def sentCount (s : String) : Nat := (sentSplitAux [] s.data).length

/-- Vowel test for the modelled syllable counter. -/
def isVowel (c : Char) : Bool :=
  c == 'a' || c == 'e' || c == 'i' || c == 'o' || c == 'u' || c == 'y'

/-- Maximal vowel groups in a word; the flag records whether the previous
character was a vowel. -/
def vowelGroups : Bool → List Char → Nat
  | _, [] => 0
  | prev, c :: cs =>
    if isVowel c then (if prev then vowelGroups true cs else 1 + vowelGroups true cs)
    else vowelGroups false cs

/-- Modelled from the external textstat library: syllables of a word
counted as maximal vowel groups, at least one per word. -/
def syllablesOf (w : String) : Nat := max 1 (vowelGroups false (w.data.map Char.toLower))

/-- Modelled from the external textstat library: the published Flesch
Reading Ease formula over the modelled word, sentence and syllable
counts (a division by zero yields 0 in ℚ). -/
def fleschReadingEase (text : String) : ℚ :=
  let words := wsTokens text.data
  let sylls := ((words.map syllablesOf).map (fun n => (n : ℚ))).sum
  206835/1000 - 1015/1000 * ((words.length : ℚ) / (sentCount text : ℚ))
    - 846/10 * (sylls / (words.length : ℚ))

/-- Modelled from the external textstat library: the published
Flesch-Kincaid Grade formula over the modelled counts. -/
def fleschKincaidGrade (text : String) : ℚ :=
  let words := wsTokens text.data
  let sylls := ((words.map syllablesOf).map (fun n => (n : ℚ))).sum
  39/100 * ((words.length : ℚ) / (sentCount text : ℚ))
    + 118/10 * (sylls / (words.length : ℚ)) - 1559/100

/-- Modelled from the external textstat library: the published Automated
Readability formula over the modelled counts. -/
def automatedReadabilityIdx (text : String) : ℚ :=
  let words := wsTokens text.data
  let chars := ((words.map (fun w => w.data.length)).map (fun n => (n : ℚ))).sum
  471/100 * (chars / (words.length : ℚ))
    + 5/10 * ((words.length : ℚ) / (sentCount text : ℚ)) - 2143/100

/-- The dictionary returned by `analyze_readability`: the too-short
error variant with zero counts, the except-branch error variant with the
naive fallback counts (no `readability_level` key in either), or the
full metrics dictionary whose `readability_level` is classified from the
Flesch score. -/
inductive ReadabilityResult where
  | tooShort (error : String) (word_count : Nat) (sentence_count : Nat)
  | errorFallback (error : String) (word_count : Nat) (sentence_count : Nat)
  | metrics (flesch_reading_ease : ℚ) (flesch_kincaid_grade : ℚ)
      (automated_readability_index : ℚ) (word_count : Nat) (sentence_count : Nat)
      (avg_sentence_length : ℚ) (avg_word_length : ℚ) (readability_level : String)
deriving Repr, DecidableEq

/-- The top-level `word_count` that `process_pdf` reads from the
readability dictionary via `.get` with default 0. -/
def ReadabilityResult.wordCountOf : ReadabilityResult → Nat
  | .tooShort _ wc _ => wc
  | .errorFallback _ wc _ => wc
  | .metrics _ _ _ wc _ _ _ _ => wc

/-- Whether the dictionary carries an error field. -/
def ReadabilityResult.hasError : ReadabilityResult → Bool
  | .tooShort _ _ _ => true
  | .errorFallback _ _ _ => true
  | .metrics _ _ _ _ _ _ _ _ => false

/-- The `readability_level` value, absent from both error variants. -/
def ReadabilityResult.levelOf : ReadabilityResult → Option String
  | .tooShort _ _ _ => none
  | .errorFallback _ _ _ => none
  | .metrics _ _ _ _ _ _ _ lvl => some lvl

/-- The `flesch_reading_ease` value, 0 in the error variants. -/
def ReadabilityResult.freOf : ReadabilityResult → ℚ
  | .tooShort _ _ _ => 0
  | .errorFallback _ _ _ => 0
  | .metrics fre _ _ _ _ _ _ _ => fre

/-- The alphabetic tokens of the input: the tokens satisfying Python
`str.isalpha()` (nonempty, all letters), whose count is the divisor of
`avg_word_length` and the `word_count` of the metrics dictionary. -/
def alphaTokens (text : String) : List String :=
  (wsTokens text.data).filter (fun w => !w.data.isEmpty && w.data.all (fun c => c.isAlpha))

/-- Python `text.split` on a period keeps empty segments, so the segment
count is the period count plus one for nonempty text; the except branch
guards the empty string to 0. -/
def periodSplitCount (s : String) : Nat :=
  if s = "" then 0 else (s.data.filter (fun c => c = '.')).length + 1

/-- `EnhancedPDFProcessor.analyze_readability`
(src/utils/enhanced_pdf_processor.py): an input that is empty or shorter
than 10 characters after stripping yields the too-short error variant
with zero counts.  Otherwise, when the token list is nonempty but has no
alphabetic token, the `avg_word_length` expression divides by the zero
count of alphabetic tokens, raising ZeroDivisionError; the except branch
then returns the error dictionary with `str(e)` and the naive fallback
counts `len(text.split())` and the period-split segment count, and no
`readability_level`.  Otherwise the metrics are computed (external NLTK
tokenizers and textstat formulas modelled as above; the word count is
the number of alphabetic tokens) and the level is the ladder applied to
the Flesch score. -/
def analyzeReadability (text : String) : ReadabilityResult :=
  if text = "" ∨ (trimChars text.data).length < 10 then
    .tooShort "Text too short for analysis" 0 0
  else if wsTokens text.data ≠ [] ∧ alphaTokens text = [] then
    .errorFallback "division by zero"
      (if text = "" then 0 else (wsTokens text.data).length)
      (periodSplitCount text)
  else
    .metrics (fleschReadingEase text) (fleschKincaidGrade text) (automatedReadabilityIdx text)
      (alphaTokens text).length (sentCount text)
      (if sentCount text ≠ 0 then
        ((wsTokens text.data).length : ℚ) / (sentCount text : ℚ)
       else 0)
      (if (wsTokens text.data).length ≠ 0 then
        (((alphaTokens text).map (fun w => (w.data.length : ℚ))).sum /
          ((alphaTokens text).length : ℚ))
       else 0)
      (readabilityLevel (fleschReadingEase text))

/-- The behaviour of the two external PDF libraries on one byte input:
pdfplumber pages whose `extract_text()` returns text or None, and PyPDF2
pages whose `extract_text()` returns a string; `Except.error` models the
library raising an exception on these bytes (empty and non-PDF byte
inputs make both raise).  An exception is modelled as failing the whole
pass; page text accumulated before a mid-iteration pdfplumber exception
is not modelled. -/
structure PdfLibs where
  plumberPages : Except String (List (Option String))
  pypdfPages : Except String (List String)
deriving Repr

/-- `EnhancedPDFProcessor.extract_text_from_bytes`
(src/utils/enhanced_pdf_processor.py), with a trace of whether the
PyPDF2 fallback was attempted: pdfplumber text accumulates page text
plus a newline for each page with text; only on a pdfplumber exception
does the PyPDF2 fallback run, accumulating page text plus a newline per
page; if the fallback also raises, the sentinel error string is
returned. -/
def extractTextWithTrace (libs : PdfLibs) : String × Bool :=
  match libs.plumberPages with
  | .ok pages =>
    (pages.foldl (fun acc po => match po with
      | some t => if t = "" then acc else acc ++ t ++ "\n"
      | none => acc) "", false)
  | .error _ =>
    match libs.pypdfPages with
    | .ok pages => (pages.foldl (fun acc t => acc ++ t ++ "\n") "", true)
    | .error _ => ("Error: Could not extract text from PDF", true)

/-- The text returned by `extract_text_from_bytes`. -/
def extractTextFromBytes (libs : PdfLibs) : String := (extractTextWithTrace libs).1

/-- `str.startswith` on character lists. -/
def startsWithChars : List Char → List Char → Bool
  | [], _ => true
  | _ :: _, [] => false
  | p :: ps, c :: cs => p == c && startsWithChars ps cs

/-- Whether the extracted text is the extraction-failure sentinel, the
`raw_text.startswith` test of `process_pdf`. -/
def startsWithError (s : String) : Bool := startsWithChars "Error:".data s.data

/-- The dictionary returned by `process_pdf`; `Option` fields model keys
absent from the failure-shape dictionary. -/
structure ProcessResult where
  success : Bool
  error : Option String
  raw_text : String
  cleaned_text : Option String
  readability_metrics : Option ReadabilityResult
  key_phrases : Option (List String)
  text_length : Option Nat
  word_count : Option Nat
deriving Repr, DecidableEq

/-- `EnhancedPDFProcessor.process_pdf` on the byte-input path
(src/utils/enhanced_pdf_processor.py): extract; if the raw text is empty
or the extraction sentinel, report failure; otherwise clean the text,
run the readability analysis and the key-phrase extraction, and return
success with the top-level word count read from the readability
dictionary (default 0).  All Python exception paths are absorbed by the
total model functions, so the function always returns a dictionary. -/
def processPdf (libs : PdfLibs) : ProcessResult :=
  let raw := extractTextFromBytes libs
  if raw = "" ∨ startsWithError raw then
    { success := false
      error := some "Failed to extract text from PDF"
      raw_text := raw
      cleaned_text := none
      readability_metrics := none
      key_phrases := none
      text_length := none
      word_count := none }
  else
    let cleaned := cleanText raw
    let rm := analyzeReadability cleaned
    { success := true
      error := none
      raw_text := raw
      cleaned_text := some cleaned
      readability_metrics := some rm
      key_phrases := some (extractKeyPhrases cleaned 15)
      text_length := some cleaned.length
      word_count := some rm.wordCountOf }

theorem cacheLookup_put_self (now : Nat) (h p : String) (st : CacheTable) :
    cacheLookup h (cacheAnalysisRow now h p st) =
      some { payload := p
             created_at := now
             accessed_count := (match cacheLookup h st with
                                | some e => e.accessed_count
                                | none => 0) + 1
             last_accessed := now } := by
  simp [cacheAnalysisRow, cacheLookup]

theorem cacheLookup_touch (now : Nat) (h : String) (st : CacheTable) :
    cacheLookup h (touchRow now h st) =
      (cacheLookup h st).map
        (fun e => { e with accessed_count := e.accessed_count + 1, last_accessed := now }) := by
  induction st with
  | nil => rfl
  | cons r rest ih =>
    obtain ⟨k, e⟩ := r
    simp only [touchRow]
    by_cases hk : k = h
    · subst hk
      rw [if_pos rfl]
      simp [cacheLookup]
    · rw [if_neg hk]
      simp [cacheLookup, hk, ih]

theorem cacheLookup_filter_of_none (h : String) (q : String × CacheEntry → Bool)
    (st : CacheTable) (hnone : cacheLookup h st = none) :
    cacheLookup h (st.filter q) = none := by
  induction st with
  | nil => rfl
  | cons r rest ih =>
    obtain ⟨k, e⟩ := r
    by_cases hk : k = h
    · simp [cacheLookup, hk] at hnone
    · simp only [cacheLookup, if_neg hk] at hnone
      by_cases hq : q (k, e)
      · simp [List.filter, hq, cacheLookup, hk, ih hnone]
      · simp [List.filter, hq, ih hnone]

theorem cacheLookup_filter_nodup (h : String) (q : String × CacheEntry → Bool)
    (st : CacheTable) (e : CacheEntry) (hnd : (st.map Prod.fst).Nodup)
    (he : cacheLookup h st = some e) :
    cacheLookup h (st.filter q) = if q (h, e) then some e else none := by
  induction st with
  | nil => simp [cacheLookup] at he
  | cons r rest ih =>
    obtain ⟨k, e0⟩ := r
    simp only [List.map_cons, List.nodup_cons] at hnd
    by_cases hk : k = h
    · subst hk
      simp only [cacheLookup, if_pos rfl, if_true, Option.some.injEq] at he
      subst he
      have hrest : cacheLookup k rest = none := by
        cases hr : cacheLookup k rest with
        | none => rfl
        | some e1 =>
          exfalso
          apply hnd.1
          clear ih hnd
          induction rest with
          | nil => simp [cacheLookup] at hr
          | cons r2 rest2 ih2 =>
            obtain ⟨k2, e2⟩ := r2
            by_cases hk2 : k2 = k
            · simp [hk2]
            · simp only [cacheLookup, if_neg hk2] at hr
              simp [ih2 hr]
      by_cases hq : q (k, e0)
      · simp [List.filter, hq, cacheLookup]
      · simp [List.filter, hq, cacheLookup_filter_of_none k q rest hrest]
    · simp only [cacheLookup, if_neg hk] at he
      by_cases hq : q (k, e0)
      · simp [List.filter, hq, cacheLookup, hk, ih hnd.2 he]
      · simp [List.filter, hq, ih hnd.2 he]

/-- C1: on an absent digest, `put` creates a row with `access_count = 1`;
a second `put` with the same digest replaces the payload, carries the
prior `access_count` forward incremented by one (cumulative, never reset
to 1), and resets `created_at` and `last_accessed` to the time of the
second `put`.  The final conjunct states the general cumulative step for
an arbitrary existing row. -/
theorem claim1_put_upsert_cumulative (t1 t2 : Nat) (h p1 p2 : String) (st : CacheTable)
    (habs : cacheLookup h st = none) :
    cacheLookup h (cacheAnalysisRow t1 h p1 st) =
      some { payload := p1, created_at := t1, accessed_count := 1, last_accessed := t1 } ∧
    cacheLookup h (cacheAnalysisRow t2 h p2 (cacheAnalysisRow t1 h p1 st)) =
      some { payload := p2, created_at := t2, accessed_count := 2, last_accessed := t2 } ∧
    (∀ (st2 : CacheTable) (e : CacheEntry) (t : Nat) (p : String),
      cacheLookup h st2 = some e →
      cacheLookup h (cacheAnalysisRow t h p st2) =
        some { payload := p, created_at := t, accessed_count := e.accessed_count + 1,
               last_accessed := t }) := by
  refine ⟨?_, ?_, ?_⟩
  · rw [cacheLookup_put_self, habs]
  · rw [cacheLookup_put_self, cacheLookup_put_self, habs]
  · intro st2 e t p he
    rw [cacheLookup_put_self, he]

/-- Witness for C1 at a concrete table: two puts on an empty table. -/
theorem claim1_witness :
    cacheLookup "h" [] = none ∧
    cacheLookup "h" (cacheAnalysisRow 10 "h" "p1" []) =
      some { payload := "p1", created_at := 10, accessed_count := 1, last_accessed := 10 } ∧
    cacheLookup "h" (cacheAnalysisRow 20 "h" "p2" (cacheAnalysisRow 10 "h" "p1" [])) =
      some { payload := "p2", created_at := 20, accessed_count := 2, last_accessed := 20 } := by
  refine ⟨rfl, ?_, ?_⟩
  · exact (claim1_put_upsert_cumulative 10 20 "h" "p1" "p2" [] rfl).1
  · exact (claim1_put_upsert_cumulative 10 20 "h" "p1" "p2" [] rfl).2.1

/-- C2: `get` returns a payload iff a row for the digest exists and
`now < created_at + 24h`; on such a hit it increments `accessed_count`
and sets `last_accessed = now`; on a row aged 24h or more it returns
absent while leaving the table unchanged, and (on a well-keyed table) the
row survives `cleanup_old_cache` until it is more than 7 days old. -/
theorem claim2_get_freshness (now : Nat) (h : String) (st : CacheTable) :
    (∀ p : String, (getCachedRow now h st).1 = some p ↔
      ∃ e, cacheLookup h st = some e ∧ e.payload = p ∧ now < e.created_at + freshnessWindow) ∧
    (∀ e, cacheLookup h st = some e → now < e.created_at + freshnessWindow →
      getCachedRow now h st = (some e.payload, touchRow now h st) ∧
      cacheLookup h (touchRow now h st) =
        some { e with accessed_count := e.accessed_count + 1, last_accessed := now }) ∧
    (∀ e, cacheLookup h st = some e → e.created_at + freshnessWindow ≤ now →
      getCachedRow now h st = (none, st)) ∧
    (∀ e t, (st.map Prod.fst).Nodup → cacheLookup h st = some e →
      (t ≤ e.created_at + retentionWindow → cacheLookup h (cleanupOldCache t st) = some e) ∧
      (e.created_at + retentionWindow < t → cacheLookup h (cleanupOldCache t st) = none)) := by
  refine ⟨?_, ?_, ?_, ?_⟩
  · intro p
    constructor
    · intro hp
      cases hl : cacheLookup h st with
      | none => simp [getCachedRow, hl] at hp
      | some e =>
        by_cases hf : now < e.created_at + freshnessWindow
        · refine ⟨e, rfl, ?_, hf⟩
          simp [getCachedRow, hl, if_pos hf] at hp
          exact hp
        · simp [getCachedRow, hl, if_neg hf] at hp
    · rintro ⟨e, hl, hp, hf⟩
      simp [getCachedRow, hl, if_pos hf, hp]
  · intro e hl hf
    refine ⟨by simp [getCachedRow, hl, if_pos hf], ?_⟩
    rw [cacheLookup_touch, hl]
    rfl
  · intro e hl hf
    simp [getCachedRow, hl, if_neg (not_lt.mpr hf)]
  · intro e t hnd hl
    constructor
    · intro hkeep
      rw [cleanupOldCache, cacheLookup_filter_nodup h _ st e hnd hl]
      simp [not_lt.mpr hkeep]
    · intro hdel
      rw [cleanupOldCache, cacheLookup_filter_nodup h _ st e hnd hl]
      simp [hdel]

/-- Witness for C2 at a concrete table: a fresh hit at `now = 200`, a
stale miss at `now = created_at + 24h`, and sweep behaviour at 7 days. -/
theorem claim2_witness :
    (getCachedRow 200 "h" [("h", ⟨"p", 100, 1, 100⟩)]).1 = some "p" ∧
    cacheLookup "h" (getCachedRow 200 "h" [("h", ⟨"p", 100, 1, 100⟩)]).2 =
      some { payload := "p", created_at := 100, accessed_count := 2, last_accessed := 200 } ∧
    getCachedRow (100 + freshnessWindow) "h" [("h", ⟨"p", 100, 1, 100⟩)] =
      (none, [("h", ⟨"p", 100, 1, 100⟩)]) ∧
    cacheLookup "h" (cleanupOldCache (100 + retentionWindow) [("h", ⟨"p", 100, 1, 100⟩)]) =
      some ⟨"p", 100, 1, 100⟩ ∧
    cacheLookup "h" (cleanupOldCache (101 + retentionWindow) [("h", ⟨"p", 100, 1, 100⟩)]) =
      none := by
  have h2 := claim2_get_freshness 200 "h" [("h", ⟨"p", 100, 1, 100⟩)]
  have hhit := h2.2.1 ⟨"p", 100, 1, 100⟩ rfl (by decide)
  have h3 := claim2_get_freshness (100 + freshnessWindow) "h" [("h", ⟨"p", 100, 1, 100⟩)]
  have hsweep := (claim2_get_freshness 0 "h" [("h", ⟨"p", 100, 1, 100⟩)]).2.2.2
    ⟨"p", 100, 1, 100⟩ (100 + retentionWindow) (by decide) rfl
  have hsweep2 := (claim2_get_freshness 0 "h" [("h", ⟨"p", 100, 1, 100⟩)]).2.2.2
    ⟨"p", 100, 1, 100⟩ (101 + retentionWindow) (by decide) rfl
  refine ⟨?_, ?_, ?_, ?_, ?_⟩
  · rw [hhit.1]
  · rw [hhit.1]
    exact hhit.2
  · exact h3.2.2.1 ⟨"p", 100, 1, 100⟩ rfl (by decide)
  · exact hsweep.1 (by decide)
  · exact hsweep2.2 (by decide)

/-- C5: cache round-trip.  For any payload serializer that round-trips
losslessly (`loads (dumps p) = some p`, the contract the spec imposes on
the serialization format), `put` followed by `get` within the 24-hour
freshness window returns exactly the payload that was put; at the row
level the stored serialized string is returned verbatim. -/
theorem claim5_cache_roundtrip {α : Type} (dumps : α → String) (loads : String → Option α)
    (hrt : ∀ a, loads (dumps a) = some a)
    (tPut tGet : Nat) (h : String) (p : α) (st : CacheTable)
    (hfresh : tGet < tPut + freshnessWindow) :
    (getCachedAnalysis loads tGet h (cacheAnalysis dumps tPut h p st)).1 = some p ∧
    (getCachedRow tGet h (cacheAnalysisRow tPut h (dumps p) st)).1 = some (dumps p) := by
  have hrow : (getCachedRow tGet h (cacheAnalysisRow tPut h (dumps p) st)).1 = some (dumps p) := by
    rw [getCachedRow]
    rw [cacheLookup_put_self]
    simp [if_pos hfresh]
  refine ⟨?_, hrow⟩
  rw [getCachedAnalysis]
  simp only [cacheAnalysis] at *
  rw [hrow]
  simp [hrt]

/-- Witness for C5: the concrete `Bool` codec is lossless and the
round-trip holds on a concrete table within the window. -/
theorem claim5_witness :
    (∀ b, boolLoads (boolDumps b) = some b) ∧
    (1 : Nat) < 0 + freshnessWindow ∧
    (getCachedAnalysis boolLoads 1 "h" (cacheAnalysis boolDumps 0 "h" true [])).1 = some true := by
  refine ⟨by decide, by decide, ?_⟩
  exact (claim5_cache_roundtrip boolDumps boolLoads (by decide) 0 1 "h" true [] (by decide)).1

theorem newline_not_mem_collapseWsAux (prev : Bool) (l : List Char) :
    '\n' ∉ collapseWsAux prev l := by
  induction l generalizing prev with
  | nil => simp [collapseWsAux]
  | cons c cs ih =>
    by_cases hc : pySpace c
    · by_cases hp : prev
      · simpa [collapseWsAux, hc, hp] using ih true
      · intro hmem
        rw [collapseWsAux, if_pos hc, if_neg hp] at hmem
        rcases List.mem_cons.mp hmem with h | h
        · exact absurd h (by decide)
        · exact ih true h
    · intro hmem
      rw [collapseWsAux, if_neg hc] at hmem
      rcases List.mem_cons.mp hmem with h | h
      · rw [← h] at hc
        exact hc (by decide)
      · exact ih false h

theorem newline_not_mem_collapseNlAux (l : List Char) :
    ∀ (prev : Bool), '\n' ∉ l → '\n' ∉ collapseNlAux prev l := by
  induction l with
  | nil =>
    intro prev hl
    simp [collapseNlAux]
  | cons c cs ih =>
    intro prev hl hmem
    have hcn : ¬(c = '\n') := fun h => hl (by simp [h])
    have hcs : '\n' ∉ cs := fun h => hl (by simp [h])
    rw [collapseNlAux, if_neg hcn] at hmem
    rcases List.mem_cons.mp hmem with h | h
    · exact hcn h.symm
    · exact ih false hcs h

theorem mem_removeHyphenSpace (l : List Char) : ∀ c, c ∈ removeHyphenSpace l → c ∈ l := by
  induction l using removeHyphenSpace.induct with
  | case1 rest ih =>
    intro c hc
    simp only [removeHyphenSpace] at hc
    simp [ih c hc]
  | case2 c rest hne ih =>
    intro d hd
    rw [removeHyphenSpace] at hd
    · rcases List.mem_cons.mp hd with h | h
      · simp [h]
      · simp [ih d h]
    · exact hne
  | case3 =>
    intro c hc
    simp [removeHyphenSpace] at hc

theorem mem_camelSpace (l : List Char) : ∀ c, c ∈ camelSpace l → c ∈ l ∨ c = ' ' := by
  induction l using camelSpace.induct with
  | case1 a b rest hcond ih =>
    intro c hc
    rw [camelSpace, if_pos hcond] at hc
    rcases List.mem_cons.mp hc with h | h
    · simp [h]
    · rcases List.mem_cons.mp h with h2 | h2
      · exact Or.inr h2
      · rcases ih c h2 with h3 | h3
        · exact Or.inl (List.mem_cons_of_mem a h3)
        · exact Or.inr h3
  | case2 a b rest hcond ih =>
    intro c hc
    rw [camelSpace, if_neg hcond] at hc
    rcases List.mem_cons.mp hc with h | h
    · simp [h]
    · rcases ih c h with h3 | h3
      · exact Or.inl (List.mem_cons_of_mem a h3)
      · exact Or.inr h3
  | case3 l hne =>
    intro c hc
    rw [camelSpace] at hc
    · exact Or.inl hc
    · exact hne

theorem mem_trimChars (l : List Char) (c : Char) (hc : c ∈ trimChars l) : c ∈ l := by
  unfold trimChars at hc
  rw [List.mem_reverse] at hc
  have h1 := (List.dropWhile_sublist pySpace).mem hc
  rw [List.mem_reverse] at h1
  exact (List.dropWhile_sublist pySpace).mem h1

theorem newline_not_mem_cleanText (s : String) : '\n' ∉ (cleanText s).data := by
  unfold cleanText
  by_cases hs : s = ""
  · simp [hs]
  · rw [if_neg hs]
    intro hmem
    have h1 := mem_trimChars _ _ hmem
    rcases mem_camelSpace _ _ h1 with h2 | h2
    · have h3 := mem_removeHyphenSpace _ _ h2
      have h4 := (List.mem_filter.mp h3).1
      exact newline_not_mem_collapseNlAux _ false
        (newline_not_mem_collapseWsAux false s.data) h4
    · exact absurd h2 (by decide)

/-- C6 counterexample: `clean_text` is not idempotent.  On the input
`"a # b"` the safe-set substitution removes the hash sign and leaves a
double space, which a second application collapses: the first pass yields
`"a  b"`, the second `"a b"`. -/
theorem claim6_counterexample :
    cleanText (cleanText "a # b") ≠ cleanText "a # b" := by decide

/-- C6 (amended): `clean_text` is a total deterministic function (it is
defined for every input string and never raises) and maps the empty
string to the empty string, but it is not idempotent: removing a
character outside the safe set can merge the two spaces around it into a
double space, which only a second pass collapses. -/
theorem claim6_amended_normalize :
    cleanText "" = "" ∧
    cleanText "a # b" = "a  b" ∧
    (∃ x : String, cleanText (cleanText x) ≠ cleanText x) := by
  refine ⟨by decide, by decide, ⟨"a # b", by decide⟩⟩

/-- C7 counterexample: `clean_text` does not preserve newlines between
lines.  The whitespace-collapsing substitution runs first and turns every
newline into a space, so the newline-separated input `"a\nb"` comes out
as `"a b"`, with no newline in the output. -/
theorem claim7_counterexample :
    cleanText "a\nb" = "a b" ∧ '\n' ∉ (cleanText "a\nb").data := by decide

/-- C7 (amended): the first substitution of `clean_text` collapses every
whitespace run, newline runs included, to a single space; the subsequent
newline-collapsing substitution therefore finds no newline, and the
output of `clean_text` never contains a newline character.
Newline-separated lines come out separated by single spaces. -/
theorem claim7_amended_no_newline :
    (∀ s : String, '\n' ∉ (cleanText s).data) ∧ cleanText "a\nb" = "a b" :=
  ⟨newline_not_mem_cleanText, by decide⟩


theorem firstIdx_cons (w v : String) (vs : List String) :
    firstIdx w (v :: vs) = if v = w then 0 else firstIdx w vs + 1 := rfl

theorem mem_firstDedupAux (l : List String) :
    ∀ (seen : List String) (v : String), v ∈ firstDedupAux seen l → v ∈ l ∧ v ∉ seen := by
  induction l with
  | nil =>
    intro seen v hv
    simp [firstDedupAux] at hv
  | cons w ws ih =>
    intro seen v hv
    by_cases hw : w ∈ seen
    · rw [firstDedupAux, if_pos hw] at hv
      have h2 := ih seen v hv
      exact ⟨List.mem_cons_of_mem w h2.1, h2.2⟩
    · rw [firstDedupAux, if_neg hw] at hv
      rcases List.mem_cons.mp hv with rfl | h
      · exact ⟨List.mem_cons_self v ws, hw⟩
      · have h2 := ih (w :: seen) v h
        exact ⟨List.mem_cons_of_mem w h2.1, fun hs => h2.2 (List.mem_cons_of_mem w hs)⟩

theorem mem_firstDedup (l : List String) (v : String) (hv : v ∈ firstDedup l) : v ∈ l :=
  (mem_firstDedupAux l [] v hv).1

theorem pairwise_firstIdx_firstDedupAux (l : List String) :
    ∀ (seen : List String),
      (firstDedupAux seen l).Pairwise (fun a b => firstIdx a l < firstIdx b l) := by
  induction l with
  | nil =>
    intro seen
    simp [firstDedupAux]
  | cons w ws ih =>
    intro seen
    by_cases hw : w ∈ seen
    · rw [firstDedupAux, if_pos hw]
      refine List.Pairwise.imp_of_mem ?_ (ih seen)
      intro a b ha hb hab
      have ha2 := mem_firstDedupAux ws seen a ha
      have hb2 := mem_firstDedupAux ws seen b hb
      have hwa : ¬(w = a) := fun h => ha2.2 (by rw [← h] at ha2 ⊢; exact hw)
      have hwb : ¬(w = b) := fun h => hb2.2 (by rw [← h] at hb2 ⊢; exact hw)
      rw [firstIdx_cons, if_neg hwa, firstIdx_cons, if_neg hwb]
      exact Nat.succ_lt_succ hab
    · rw [firstDedupAux, if_neg hw]
      refine List.Pairwise.cons ?_ ?_
      · intro b hb
        have hb2 := mem_firstDedupAux ws (w :: seen) b hb
        have hwb : ¬(w = b) := fun h => hb2.2 (by rw [← h]; exact List.mem_cons_self w seen)
        rw [firstIdx_cons, if_pos rfl, firstIdx_cons, if_neg hwb]
        exact Nat.succ_pos _
      · refine List.Pairwise.imp_of_mem ?_ (ih (w :: seen))
        intro a b ha hb hab
        have ha2 := mem_firstDedupAux ws (w :: seen) a ha
        have hb2 := mem_firstDedupAux ws (w :: seen) b hb
        have hwa : ¬(w = a) := fun h => ha2.2 (by rw [← h]; exact List.mem_cons_self w seen)
        have hwb : ¬(w = b) := fun h => hb2.2 (by rw [← h]; exact List.mem_cons_self w seen)
        rw [firstIdx_cons, if_neg hwa, firstIdx_cons, if_neg hwb]
        exact Nat.succ_lt_succ hab

theorem pairwise_firstIdx_firstDedup (l : List String) :
    (firstDedup l).Pairwise (fun a b => firstIdx a l < firstIdx b l) :=
  pairwise_firstIdx_firstDedupAux l []

theorem mem_insertByCount (p : String × Nat) (l : List (String × Nat)) :
    ∀ x, x ∈ insertByCount p l ↔ x = p ∨ x ∈ l := by
  induction l with
  | nil =>
    intro x
    simp [insertByCount]
  | cons q rest ih =>
    intro x
    by_cases h : p.2 ≤ q.2
    · rw [insertByCount, if_pos h]
      rw [List.mem_cons, ih x, List.mem_cons]
      tauto
    · rw [insertByCount, if_neg h]
      simp only [List.mem_cons]

theorem pairwise_insertByCount (ix : String → Nat) (p : String × Nat) :
    ∀ (l : List (String × Nat)), l.Pairwise (rankedBefore ix) →
      (∀ q ∈ l, ix q.1 < ix p.1) → (insertByCount p l).Pairwise (rankedBefore ix) := by
  intro l
  induction l with
  | nil =>
    intro h1 h2
    rw [insertByCount]
    exact List.pairwise_singleton _ _
  | cons q rest ih =>
    intro hl hix
    rcases List.pairwise_cons.mp hl with ⟨hq, hrest⟩
    by_cases h : p.2 ≤ q.2
    · rw [insertByCount, if_pos h]
      refine List.Pairwise.cons ?_
        (ih hrest (fun r hr => hix r (List.mem_cons_of_mem q hr)))
      intro x hx
      rcases (mem_insertByCount p rest x).mp hx with rfl | hx2
      · rcases Nat.lt_or_ge x.2 q.2 with hlt | hge
        · exact Or.inl hlt
        · have heq : x.2 = q.2 := Nat.le_antisymm h hge
          exact Or.inr ⟨heq.symm, hix q (List.mem_cons_self q rest)⟩
      · exact hq x hx2
    · rw [insertByCount, if_neg h]
      have hqp : q.2 < p.2 := Nat.lt_of_not_le h
      refine List.Pairwise.cons ?_ hl
      intro x hx
      rcases List.mem_cons.mp hx with rfl | hx2
      · exact Or.inl hqp
      · rcases hq x hx2 with h2 | h2
        · exact Or.inl (h2.trans hqp)
        · exact Or.inl (lt_of_eq_of_lt h2.1.symm hqp)

theorem sortFold_mem (ps : List (String × Nat)) :
    ∀ (acc : List (String × Nat)) (x),
      x ∈ ps.foldl (fun a p => insertByCount p a) acc ↔ x ∈ acc ∨ x ∈ ps := by
  induction ps with
  | nil =>
    intro acc x
    simp
  | cons p rest ih =>
    intro acc x
    rw [List.foldl_cons, ih, mem_insertByCount]
    rw [List.mem_cons]
    tauto

theorem sortFold_pairwise (ix : String → Nat) (ps : List (String × Nat)) :
    ∀ (acc : List (String × Nat)),
      ps.Pairwise (fun p q => ix p.1 < ix q.1) →
      acc.Pairwise (rankedBefore ix) →
      (∀ q ∈ acc, ∀ p ∈ ps, ix q.1 < ix p.1) →
      (ps.foldl (fun a p => insertByCount p a) acc).Pairwise (rankedBefore ix) := by
  induction ps with
  | nil =>
    intro acc hps hacc hfut
    simpa using hacc
  | cons p rest ih =>
    intro acc hps hacc hfut
    rcases List.pairwise_cons.mp hps with ⟨hp, hrest⟩
    rw [List.foldl_cons]
    refine ih (insertByCount p acc) hrest ?_ ?_
    · exact pairwise_insertByCount ix p acc hacc
        (fun q hq => hfut q hq p (List.mem_cons_self p rest))
    · intro q hq r hr
      rcases (mem_insertByCount p acc q).mp hq with rfl | hq2
      · exact hp r hr
      · exact hfut q hq2 r (List.mem_cons_of_mem p hr)

theorem countsList_mem (ws : List String) (p : String × Nat) (hp : p ∈ countsList ws) :
    p.2 = ws.count p.1 ∧ p.1 ∈ ws := by
  rcases List.mem_map.mp hp with ⟨w, hw, rfl⟩
  exact ⟨rfl, mem_firstDedup ws w hw⟩

theorem countsList_pairwise (ws : List String) :
    (countsList ws).Pairwise (fun p q => firstIdx p.1 ws < firstIdx q.1 ws) :=
  List.pairwise_map.mpr (pairwise_firstIdx_firstDedup ws)

/-- C8: `extract_key_phrases` returns at most `top_n` items; every
returned item passes the token filter (alphabetic, length greater than 2,
not a stop-word); the items are ordered by strictly descending frequency
in the filtered token stream with ties broken by first-occurrence order;
the empty input gives the empty list (and the function is a total Lean
function, hence never raises); and the concrete scenario
`extract_key_phrases("python python sql python sql java", top_n=2)
= ["python", "sql"]` holds. -/
theorem claim8_extract_key_phrases (text : String) (top_n : Nat) :
    (extractKeyPhrases text top_n).length ≤ top_n ∧
    (∀ w ∈ extractKeyPhrases text top_n, validToken w = true) ∧
    extractKeyPhrases "" top_n = [] ∧
    (∀ i j (hi : i < (extractKeyPhrases text top_n).length)
        (hj : j < (extractKeyPhrases text top_n).length), i < j →
      (filteredTokens text).count ((extractKeyPhrases text top_n).get ⟨j, hj⟩) <
        (filteredTokens text).count ((extractKeyPhrases text top_n).get ⟨i, hi⟩) ∨
      ((filteredTokens text).count ((extractKeyPhrases text top_n).get ⟨i, hi⟩) =
          (filteredTokens text).count ((extractKeyPhrases text top_n).get ⟨j, hj⟩) ∧
        firstIdx ((extractKeyPhrases text top_n).get ⟨i, hi⟩) (filteredTokens text) <
          firstIdx ((extractKeyPhrases text top_n).get ⟨j, hj⟩) (filteredTokens text))) ∧
    extractKeyPhrases "python python sql python sql java" 2 = ["python", "sql"] := by
  have hconc : extractKeyPhrases "python python sql python sql java" 2 = ["python", "sql"] := by
    decide
  by_cases htext : text = ""
  · subst htext
    refine ⟨by simp [extractKeyPhrases], ?_, by simp [extractKeyPhrases], ?_, hconc⟩
    · intro w hw
      simp [extractKeyPhrases] at hw
    · intro i j hi hj hij
      simp [extractKeyPhrases] at hi
  · have hout : extractKeyPhrases text top_n =
        ((sortByCountDesc (countsList (filteredTokens text))).take top_n).map Prod.fst := by
      rw [extractKeyPhrases, if_neg htext]
    have hsortmem : ∀ x, x ∈ sortByCountDesc (countsList (filteredTokens text)) →
        x ∈ countsList (filteredTokens text) := by
      intro x hx
      rcases (sortFold_mem (countsList (filteredTokens text)) [] x).mp hx with h | h
      · exact absurd h (List.not_mem_nil x)
      · exact h
    have htakemem : ∀ x, x ∈ (sortByCountDesc (countsList (filteredTokens text))).take top_n →
        x ∈ countsList (filteredTokens text) := by
      intro x hx
      exact hsortmem x ((List.take_sublist top_n _).mem hx)
    refine ⟨?_, ?_, by simp [extractKeyPhrases], ?_, hconc⟩
    · rw [hout, List.length_map]
      exact List.length_take_le top_n _
    · intro w hw
      rw [hout] at hw
      rcases List.mem_map.mp hw with ⟨p, hp, rfl⟩
      have hmem := (countsList_mem _ p (htakemem p hp)).2
      exact (List.mem_filter.mp hmem).2
    · intro i j hi hj hij
      have hpair : (sortByCountDesc (countsList (filteredTokens text))).Pairwise
          (rankedBefore (fun w => firstIdx w (filteredTokens text))) := by
        refine sortFold_pairwise _ _ [] (countsList_pairwise _) List.Pairwise.nil ?_
        intro q hq
        exact absurd hq (List.not_mem_nil q)
      have htakepair := hpair.sublist (List.take_sublist top_n _)
      have hSpair : ((sortByCountDesc (countsList (filteredTokens text))).take top_n).Pairwise
          (fun p q => (filteredTokens text).count q.1 < (filteredTokens text).count p.1 ∨
            ((filteredTokens text).count p.1 = (filteredTokens text).count q.1 ∧
              firstIdx p.1 (filteredTokens text) < firstIdx q.1 (filteredTokens text))) := by
        refine List.Pairwise.imp_of_mem ?_ htakepair
        intro p q hp hq hr
        have hpc := (countsList_mem _ p (htakemem p hp)).1
        have hqc := (countsList_mem _ q (htakemem q hq)).1
        rcases hr with h | h
        · exact Or.inl (hpc ▸ hqc ▸ h)
        · exact Or.inr ⟨hpc ▸ hqc ▸ h.1, h.2⟩
      have houtpair : (extractKeyPhrases text top_n).Pairwise
          (fun w v => (filteredTokens text).count v < (filteredTokens text).count w ∨
            ((filteredTokens text).count w = (filteredTokens text).count v ∧
              firstIdx w (filteredTokens text) < firstIdx v (filteredTokens text))) := by
        rw [hout]
        exact List.pairwise_map.mpr hSpair
      exact List.pairwise_iff_get.mp houtpair ⟨i, hi⟩ ⟨j, hj⟩ hij

/-- Witness for C8 at the concrete scenario input of the spec. -/
theorem claim8_witness :
    (extractKeyPhrases "python python sql python sql java" 2).length ≤ 2 ∧
    extractKeyPhrases "python python sql python sql java" 2 = ["python", "sql"] :=
  ⟨(claim8_extract_key_phrases "python python sql python sql java" 2).1,
   (claim8_extract_key_phrases "python python sql python sql java" 2).2.2.2.2⟩

theorem levelRank_readabilityLevel (s : ℚ) :
    levelRank (readabilityLevel s) =
      if 90 ≤ s then 0
      else if 80 ≤ s then 1
      else if 70 ≤ s then 2
      else if 60 ≤ s then 3
      else if 50 ≤ s then 4
      else if 30 ≤ s then 5
      else 6 := by
  unfold readabilityLevel
  split_ifs <;> rfl

/-- C4 counterexample: the input `"1234567890"` is accepted (10
characters after stripping) but its only token has no letter, so the
source divides by the zero count of alphabetic tokens in
`avg_word_length`, raises ZeroDivisionError, and returns the
except-branch dictionary with no `readability_level` at all; so the
readability level of an accepted input is not always given by the
threshold ladder. -/
theorem claim4_counterexample :
    10 ≤ (trimChars ("1234567890" : String).data).length ∧
    analyzeReadability "1234567890" =
      ReadabilityResult.errorFallback "division by zero" 1 1 ∧
    (analyzeReadability "1234567890").levelOf = none := by decide

set_option maxHeartbeats 1000000 in
/-- C4 (amended): for every input accepted by `analyze_readability` (at
least 10 characters after stripping) on which the metric computation
does not raise — the input has at least one alphabetic token — the
readability level is exactly the descending threshold ladder applied to
the Flesch score; the ladder has inclusive lower bounds as listed; and
the ladder is antitone: a higher score never lands in a strictly harder
bucket. -/
theorem claim4_amended_readability_level (text : String) (s s1 s2 : ℚ)
    (haccept : 10 ≤ (trimChars text.data).length)
    (halpha : alphaTokens text ≠ []) (hle : s1 ≤ s2) :
    (analyzeReadability text).levelOf =
      some (readabilityLevel (analyzeReadability text).freOf) ∧
    (90 ≤ s → readabilityLevel s = "Very Easy") ∧
    (80 ≤ s → s < 90 → readabilityLevel s = "Easy") ∧
    (70 ≤ s → s < 80 → readabilityLevel s = "Fairly Easy") ∧
    (60 ≤ s → s < 70 → readabilityLevel s = "Standard") ∧
    (50 ≤ s → s < 60 → readabilityLevel s = "Fairly Difficult") ∧
    (30 ≤ s → s < 50 → readabilityLevel s = "Difficult") ∧
    (s < 30 → readabilityLevel s = "Very Difficult") ∧
    levelRank (readabilityLevel s2) ≤ levelRank (readabilityLevel s1) := by
  have hne : ¬(text = "" ∨ (trimChars text.data).length < 10) := by
    rintro (h | h)
    · subst h
      simp [trimChars, List.dropWhile] at haccept
    · omega
  have hnz : ¬(wsTokens text.data ≠ [] ∧ alphaTokens text = []) := fun h => halpha h.2
  refine ⟨?_, ?_, ?_, ?_, ?_, ?_, ?_, ?_, ?_⟩
  · rw [analyzeReadability, if_neg hne, if_neg hnz]
    rfl
  · intro h1
    rw [readabilityLevel, if_pos h1]
  · intro h1 h2
    rw [readabilityLevel, if_neg (by linarith), if_pos h1]
  · intro h1 h2
    rw [readabilityLevel, if_neg (by linarith), if_neg (by linarith), if_pos h1]
  · intro h1 h2
    rw [readabilityLevel, if_neg (by linarith), if_neg (by linarith), if_neg (by linarith),
      if_pos h1]
  · intro h1 h2
    rw [readabilityLevel, if_neg (by linarith), if_neg (by linarith), if_neg (by linarith),
      if_neg (by linarith), if_pos h1]
  · intro h1 h2
    rw [readabilityLevel, if_neg (by linarith), if_neg (by linarith), if_neg (by linarith),
      if_neg (by linarith), if_neg (by linarith), if_pos h1]
  · intro h1
    rw [readabilityLevel, if_neg (by linarith), if_neg (by linarith), if_neg (by linarith),
      if_neg (by linarith), if_neg (by linarith), if_neg (by linarith)]
  · rw [levelRank_readabilityLevel, levelRank_readabilityLevel]
    split_ifs <;> first | omega | linarith

/-- Witness for C4 at a concrete accepted alphabetic input and concrete
scores. -/
theorem claim4_witness :
    10 ≤ (trimChars ("abcdefghijkl" : String).data).length ∧
    alphaTokens "abcdefghijkl" ≠ [] ∧
    ((40 : ℚ) ≤ 95) ∧
    (analyzeReadability "abcdefghijkl").levelOf =
      some (readabilityLevel (analyzeReadability "abcdefghijkl").freOf) ∧
    readabilityLevel (95 : ℚ) = "Very Easy" ∧
    levelRank (readabilityLevel (95 : ℚ)) ≤ levelRank (readabilityLevel (40 : ℚ)) := by
  refine ⟨by decide, by decide, by norm_num, ?_, ?_, ?_⟩
  · exact (claim4_amended_readability_level "abcdefghijkl" 0 40 95 (by decide) (by decide)
      (by norm_num)).1
  · exact (claim4_amended_readability_level "abcdefghijkl" 95 40 95 (by decide) (by decide)
      (by norm_num)).2.1 (by norm_num)
  · exact (claim4_amended_readability_level "abcdefghijkl" 0 40 95 (by decide) (by decide)
      (by norm_num)).2.2.2.2.2.2.2.2

/-- C3: when both extraction strategies fail (both external libraries
raise, as they do on empty and non-PDF byte inputs), or when extraction
yields no text at all, `process_pdf` returns success equal to false with
a non-empty error message; the model functions are total, so nothing is
raised to the caller. -/
theorem claim3_extract_failure (libs : PdfLibs)
    (hfail : ((∃ e1, libs.plumberPages = Except.error e1) ∧
              (∃ e2, libs.pypdfPages = Except.error e2)) ∨
             extractTextFromBytes libs = "") :
    (processPdf libs).success = false ∧
    (processPdf libs).error = some "Failed to extract text from PDF" ∧
    "Failed to extract text from PDF" ≠ "" := by
  have hcond : extractTextFromBytes libs = "" ∨ startsWithError (extractTextFromBytes libs) = true := by
    rcases hfail with ⟨⟨e1, h1⟩, ⟨e2, h2⟩⟩ | hempty
    · right
      rw [extractTextFromBytes, extractTextWithTrace, h1, h2]
      show startsWithError "Error: Could not extract text from PDF" = true
      decide
    · left
      exact hempty
  have hcond2 : extractTextFromBytes libs = "" ∨ startsWithError (extractTextFromBytes libs) := by
    rcases hcond with h | h
    · exact Or.inl h
    · exact Or.inr (by rw [h])
  rw [processPdf, if_pos hcond2]
  exact ⟨rfl, rfl, by decide⟩

/-- Witness for C3: a concrete input on which both libraries raise. -/
theorem claim3_witness :
    (processPdf ⟨Except.error "bad header", Except.error "bad header too"⟩).success = false ∧
    (processPdf ⟨Except.error "bad header", Except.error "bad header too"⟩).error =
      some "Failed to extract text from PDF" := by
  have h := claim3_extract_failure ⟨Except.error "bad header", Except.error "bad header too"⟩
    (Or.inl ⟨⟨"bad header", rfl⟩, ⟨"bad header too", rfl⟩⟩)
  exact ⟨h.1, h.2.1⟩

/-- C9 counterexample: a behaviour on which the primary strategy
succeeds with an empty result (pdfplumber opens the document and finds
no pages) while the fallback would find text; the extractor returns the
empty string without ever attempting the fallback, refuting the claim
that an empty primary result triggers the fallback. -/
theorem claim9_counterexample :
    extractTextFromBytes ⟨Except.ok [], Except.ok ["recoverable text"]⟩ = "" ∧
    (extractTextWithTrace ⟨Except.ok [], Except.ok ["recoverable text"]⟩).2 = false := by
  constructor
  · rfl
  · rfl

/-- C9 (amended): the PyPDF2 fallback is attempted exactly when the
primary pdfplumber strategy raises an exception; a primary run that
succeeds with an empty result does not trigger the fallback (the empty
text is returned and the failure is only reported later by
`process_pdf`). -/
theorem claim9_amended_fallback (libs : PdfLibs) :
    (extractTextWithTrace libs).2 = true ↔ ∃ e, libs.plumberPages = Except.error e := by
  cases hp : libs.plumberPages with
  | ok pages =>
    rw [extractTextWithTrace, hp]
    simp
  | error e =>
    rw [extractTextWithTrace, hp]
    cases hq : libs.pypdfPages with
    | ok pages2 => simp
    | error e2 => simp

/-- C10: whenever extraction succeeds (non-empty raw text that is not
the failure sentinel) but the cleaned text is shorter than 10 characters
after stripping, `process_pdf` still returns success equal to true while
the readability dictionary is the error variant and the top-level word
count is 0: pipeline-level success does not imply that readability
metrics were computed. -/
theorem claim10_success_despite_short_text (libs : PdfLibs)
    (hne : extractTextFromBytes libs ≠ "")
    (hnerr : startsWithError (extractTextFromBytes libs) = false)
    (hshort : (trimChars (cleanText (extractTextFromBytes libs)).data).length < 10) :
    (processPdf libs).success = true ∧
    (processPdf libs).readability_metrics =
      some (ReadabilityResult.tooShort "Text too short for analysis" 0 0) ∧
    (ReadabilityResult.tooShort "Text too short for analysis" 0 0).hasError = true ∧
    (processPdf libs).word_count = some 0 := by
  have hcond : ¬(extractTextFromBytes libs = "" ∨ startsWithError (extractTextFromBytes libs)) := by
    rintro (h | h)
    · exact hne h
    · rw [hnerr] at h
      exact Bool.false_ne_true h
  have hrm : analyzeReadability (cleanText (extractTextFromBytes libs)) =
      ReadabilityResult.tooShort "Text too short for analysis" 0 0 := by
    rw [analyzeReadability, if_pos (Or.inr hshort)]
  rw [processPdf, if_neg hcond]
  refine ⟨rfl, ?_, rfl, ?_⟩
  · simp only [hrm]
  · simp only [hrm]
    rfl

/-- Witness for C10: pdfplumber succeeds with a two-character page. -/
theorem claim10_witness :
    extractTextFromBytes ⟨Except.ok [some "hi"], Except.ok []⟩ ≠ "" ∧
    startsWithError (extractTextFromBytes ⟨Except.ok [some "hi"], Except.ok []⟩) = false ∧
    (trimChars (cleanText (extractTextFromBytes ⟨Except.ok [some "hi"], Except.ok []⟩)).data).length < 10 ∧
    (processPdf ⟨Except.ok [some "hi"], Except.ok []⟩).success = true ∧
    (processPdf ⟨Except.ok [some "hi"], Except.ok []⟩).word_count = some 0 := by
  have h := claim10_success_despite_short_text ⟨Except.ok [some "hi"], Except.ok []⟩
    (by decide) (by decide) (by decide)
  exact ⟨by decide, by decide, by decide, h.1, h.2.2.2⟩
